import Mathlib

/-!
Verification of the video-identifier extraction routine of the
Youtube-Summarizer repository (`extract_video_id` in `Yt_agent.py`).

The function is a pure string transformation built on Python 3.11's
`urllib.parse.urlparse` / `parse_qs`.  We give a shallow embedding: strings
are lists of characters (`Str`), the parsing pipeline of
`urllib.parse.urlsplit` / `urlparse` is reproduced step by step, and the
`ValueError`s that `urlsplit` can raise are modelled with `Except`.
Python's `int`-free, purely lexical string operations (`lstrip`, `split`,
`partition`, `rpartition`, `startswith`, `endswith`, percent-decoding) are
modelled by like-named helpers.
-/

namespace YtSummarizer

/-- Strings are modelled as lists of characters. -/
abbrev Str := List Char

/-- Character data of a Lean string literal. -/
def strOf (s : String) : Str := s.data

/-- Models Python `str.lower` for the ASCII range.  (CPython applies the full
Unicode simple lowercase mapping; the inputs reaching this helper in the
modelled pipeline are scheme and host names, for which only the ASCII
mapping is relevant.) -/
def pyLower (c : Char) : Char :=
  if 'A' ≤ c ∧ c ≤ 'Z' then Char.ofNat (c.toNat + 32) else c

/-- True for characters in Python's `_WHATWG_C0_CONTROL_OR_SPACE`
(U+0000 – U+0020), stripped from the front of the URL by `urlsplit`. -/
def isC0Space (c : Char) : Bool := c.toNat ≤ 0x20

/-- True for `\t`, `\r`, `\n`, Python's `_UNSAFE_URL_BYTES_TO_REMOVE`,
removed everywhere in the URL by `urlsplit`. -/
def isUnsafeByte (c : Char) : Bool := c == '\t' || c == '\r' || c == '\n'

/-- ASCII test, Python `str.isascii` per character. -/
def isAscii (c : Char) : Bool := c.toNat ≤ 0x7f

/-- Membership in Python's `scheme_chars`
(`abcdefghijklmnopqrstuvwxyzABCDEFGHIJKLMNOPQRSTUVWXYZ0123456789+-.`). -/
def isSchemeChar (c : Char) : Bool :=
  c.isAlpha || c.isDigit || c == '+' || c == '-' || c == '.'

/-- Models Python `s.lstrip(cs)`: drop leading characters belonging to the
set `cs`. -/
def pyLstrip (cs : List Char) (s : Str) : Str :=
  s.dropWhile (fun c => cs.contains c)

/-- Models Python `s.startswith(pre)`. -/
def pyStartswith (s pre : Str) : Bool := pre.isPrefixOf s

/-- Models Python `s.endswith(suf)`. -/
def pyEndswith (s suf : Str) : Bool := suf.isSuffixOf s

/-- Models Python `s.split(sep)` for a one-character separator `sep`
(all occurrences, empty chunks kept, `""` yields `[""]`). -/
def splitOnChar (sep : Char) : Str → List Str
  | [] => [[]]
  | c :: rest =>
    if c = sep then [] :: splitOnChar sep rest
    else
      match splitOnChar sep rest with
      | [] => [[c]]
      | r :: rs => (c :: r) :: rs

/-- Models Python `s.split(sep, 1)` restricted to the pieces both sides of
the first separator: returns `(before, after)` where `after` is `[]` when
the separator does not occur.  This also models the two-way splits
`url.split(sep, 1)` performed by `urlsplit` for `#` and `?`, which leave
the input unchanged when the separator is absent. -/
def cutFirst (c : Char) (s : Str) : Str × Str :=
  (s.takeWhile (fun x => x != c), (s.dropWhile (fun x => x != c)).tail)

/-- Models Python `s.partition(c)`: `(before, found, after)`; when `c` does
not occur the result is `(s, false, [])`. -/
def pyPartition (c : Char) (s : Str) : Str × Bool × Str :=
  if s.contains c then
    (s.takeWhile (fun x => x != c), true, (s.dropWhile (fun x => x != c)).tail)
  else (s, false, [])

/-- Index of the last occurrence of `c` in `s`, models Python `s.rfind(c)`
with `none` for `-1`. -/
def pyRfind (c : Char) (s : Str) : Option Nat :=
  (s.reverse.findIdx? (fun x => x == c)).map (fun k => s.length - 1 - k)

/-- Models Python `s.rpartition(c)`: `(before, found, after)`; when `c` does
not occur the result is `([], false, s)`. -/
def pyRpartition (c : Char) (s : Str) : Str × Bool × Str :=
  match pyRfind c s with
  | none => ([], false, s)
  | some j => (s.take j, true, s.drop (j + 1))

/-! ### Bracketed-host validation

`urlsplit` validates a bracketed host with `_check_bracketed_host`, which
accepts IPvFuture literals (`v<hex>+.<rest>`) and textual IPv6 addresses
(via `ipaddress.ip_address`), and rejects bracketed IPv4 addresses.  The
IPv4/IPv6 textual grammars below mirror `ipaddress._ip_int_from_string`
of CPython 3.11. -/

/-- Hexadecimal digit (both cases), as in `string.hexdigits`. -/
def isHexDig (c : Char) : Bool :=
  c.isDigit || ('a' ≤ c && c ≤ 'f') || ('A' ≤ c && c ≤ 'F')

/-- Numeric value of a decimal digit string (callers guarantee digits). -/
def natOfDigits (s : Str) : Nat :=
  s.foldl (fun n c => n * 10 + (c.toNat - 48)) 0

/-- One octet of a dotted-quad IPv4 address: 1–3 decimal digits, value at
most 255, no leading zero (`ipaddress._parse_octet`). -/
def isIPv4Octet (s : Str) : Bool :=
  !s.isEmpty && s.length ≤ 3 && s.all Char.isDigit &&
    (s == ['0'] || s.headD ' ' != '0') && natOfDigits s ≤ 255

/-- Dotted-quad IPv4 address as accepted by `ipaddress.IPv4Address`. -/
def isIPv4 (s : Str) : Bool :=
  match splitOnChar '.' s with
  | [a, b, c, d] => isIPv4Octet a && isIPv4Octet b && isIPv4Octet c && isIPv4Octet d
  | _ => false

/-- One hextet of an IPv6 address: 1–4 hex digits
(`ipaddress._parse_hextet`). -/
def isHextet (s : Str) : Bool :=
  !s.isEmpty && s.length ≤ 4 && s.all isHexDig

/-- Textual IPv6 address as accepted by `ipaddress.IPv6Address`
(optional nonempty `%zone`, at most one `::`, up to 8 hextets, optional
trailing dotted-quad counting as two hextets); mirrors the `skip_index`
algorithm of `ipaddress.IPv6Address._ip_int_from_string`. -/
def isIPv6 (s : Str) : Bool :=
  let pz := pyPartition '%' s
  let addr := pz.1
  (if pz.2.1 then !pz.2.2.isEmpty && !pz.2.2.contains '%' else true) &&
  (let parts0 := splitOnChar ':' addr
   if parts0.length < 3 then false
   else
     let lastP := parts0.getLastD []
     let usesV4 := lastP.contains '.'
     if usesV4 && !isIPv4 lastP then false
     else
       let parts := if usesV4 then parts0.dropLast ++ [['0'], ['0']] else parts0
       if parts.length > 9 then false
       else
         let mids := (List.range parts.length).filter
           (fun i => decide (0 < i) && decide (i + 1 < parts.length) && (parts.getD i []).isEmpty)
         match mids with
         | [] =>
           parts.length == 8 && parts.all isHextet
         | [i] =>
           let firstEmpty := (parts.headD []).isEmpty
           let lastEmpty := (parts.getLastD []).isEmpty
           (if firstEmpty then i == 1 else true) &&
           (if lastEmpty then i == parts.length - 2 else true) &&
           (let hi := if firstEmpty then 0 else i
            let lo := if lastEmpty then 0 else parts.length - i - 1
            decide (hi + lo < 8) &&
            (parts.take hi).all isHextet &&
            (parts.drop (parts.length - lo)).all isHextet)
         | _ => false)

/-- Models `urllib.parse._check_bracketed_host` (CPython 3.11): accepts
IPvFuture literals `v<hex>+.<nonempty non-newline rest>` and valid IPv6
addresses; rejects everything else, in particular bracketed IPv4. -/
def check_bracketed_host (h : Str) : Except String Unit :=
  match h with
  | 'v' :: rest =>
    let hex := rest.takeWhile isHexDig
    let rest2 := rest.dropWhile isHexDig
    if hex.isEmpty then .error "IPvFuture address is invalid"
    else
      match rest2 with
      | '.' :: tl =>
        if !tl.isEmpty && tl.all (fun c => c != '\n') then .ok ()
        else .error "IPvFuture address is invalid"
      | _ => .error "IPvFuture address is invalid"
  | _ =>
    if isIPv4 h then .error "An IPv4 address cannot be in brackets"
    else if isIPv6 h then .ok ()
    else .error "does not appear to be an IPv4 or IPv6 address"

/-- The characters whose NFKC normalization contains one of `/?#@:`
(computed over all of Unicode as shipped with CPython 3.11).  Since a
netloc cannot contain ASCII `/`, `?` or `#`, and ASCII `@`/`:` are removed
before the check, `urllib.parse._checknetloc` raises exactly when the
netloc is not pure ASCII and contains one of these characters. -/
def badNFKCCodes : List Nat :=
  [0x2047, 0x2048, 0x2049, 0x2100, 0x2101, 0x2105, 0x2106, 0x2a74,
   0xfe13, 0xfe16, 0xfe55, 0xfe56, 0xfe5f, 0xfe6b,
   0xff03, 0xff0f, 0xff1a, 0xff1f, 0xff20]

/-- Models `urllib.parse._checknetloc`: accept empty or all-ASCII netlocs;
otherwise reject netlocs containing a character whose NFKC normalization
introduces one of `/?#@:`. -/
def checknetloc (netloc : Str) : Except String Unit :=
  if netloc.isEmpty || netloc.all isAscii then .ok ()
  else if netloc.any (fun c => badNFKCCodes.contains c.toNat) then
    .error "netloc contains invalid characters under NFKC normalization"
  else .ok ()

/-! ### `urlsplit` / `urlparse` -/

/-- Result of `urlsplit` (the sub-tuple relevant here). -/
structure SplitResult where
  scheme : Str
  netloc : Str
  path : Str
  query : Str
  fragment : Str
deriving Repr, DecidableEq

/-- Result of `urlparse`. -/
structure ParseResult where
  scheme : Str
  netloc : Str
  path : Str
  params : Str
  query : Str
  fragment : Str
deriving Repr, DecidableEq

/-- The scheme-detection step of `urlsplit`: if the text up to the first
`:` is a nonempty run of scheme characters starting with an ASCII letter,
it is the (lowercased) scheme; otherwise there is no scheme. -/
def schemeSplit (u : Str) : Str × Str :=
  match u.findIdx? (fun c => c == ':') with
  | some i =>
    if decide (0 < i) &&
       (match u.head? with | some c => c.isAlpha | none => false) &&
       (u.take i).all isSchemeChar
    then ((u.take i).map pyLower, u.drop (i + 1))
    else ([], u)
  | none => ([], u)

/-- Netloc delimiters looked up by `urllib.parse._splitnetloc`. -/
def isNetlocDelim (c : Char) : Bool := c == '/' || c == '?' || c == '#'

/-- The netloc-extraction step of `urlsplit`: when the remainder starts
with `//`, the netloc runs to the first of `/?#`; the bracket validation
of `urlsplit` (raising `ValueError` for mismatched brackets, and
`_check_bracketed_host` when both brackets occur) is performed here. -/
def netlocSplit (u : Str) : Except String (Str × Str) :=
  match u with
  | '/' :: '/' :: rest =>
    let netloc := rest.takeWhile (fun c => !isNetlocDelim c)
    let after := rest.dropWhile (fun c => !isNetlocDelim c)
    let hasOpen := netloc.contains '['
    let hasClose := netloc.contains ']'
    if (hasOpen && !hasClose) || (hasClose && !hasOpen) then
      .error "Invalid IPv6 URL"
    else if hasOpen && hasClose then
      let bracketed := (pyPartition '[' netloc).2.2
      let bhost := (pyPartition ']' bracketed).1
      match check_bracketed_host bhost with
      | .error e => .error e
      | .ok _ => .ok (netloc, after)
    else .ok (netloc, after)
  | _ => .ok ([], u)

/-- Models `urllib.parse.urlsplit` (CPython 3.11, default arguments):
strip leading C0-control/space characters, remove `\t\r\n`, detect the
scheme, extract and validate the netloc, split off fragment then query.
The `ValueError`s raised by `urlsplit` become `Except.error`. -/
def urlsplitE (url0 : Str) : Except String SplitResult :=
  let u1 := (url0.dropWhile isC0Space).filter (fun c => !isUnsafeByte c)
  let sp := schemeSplit u1
  match netlocSplit sp.2 with
  | .error e => .error e
  | .ok nl =>
    let f := cutFirst '#' nl.2
    let q := cutFirst '?' f.1
    match checknetloc nl.1 with
    | .error e => .error e
    | .ok _ => .ok ⟨sp.1, nl.1, q.1, q.2, f.2⟩

/-- The schemes of `urllib.parse.uses_params` (CPython 3.11). -/
def usesParams : List Str :=
  [[], strOf "ftp", strOf "hdl", strOf "prospero", strOf "http",
   strOf "imap", strOf "https", strOf "shttp", strOf "rtsp",
   strOf "rtsps", strOf "rtspu", strOf "sip", strOf "sips",
   strOf "mms", strOf "sftp", strOf "tel"]

/-- Models `urllib.parse._splitparams`: split `;params` off the last path
segment.  (The branch for a `;`-free path mirrors Python's slicing with
`find` returning `-1`; `urlparse` only calls this when `;` occurs.) -/
def splitParams (url : Str) : Str × Str :=
  if url.contains '/' then
    match pyRfind '/' url with
    | some j =>
      match (url.drop j).findIdx? (fun c => c == ';') with
      | some o => (url.take (j + o), url.drop (j + o + 1))
      | none => (url, [])
    | none => (url, [])
  else
    match url.findIdx? (fun c => c == ';') with
    | some i => (url.take i, url.drop (i + 1))
    | none => (url.take (url.length - 1), url)

/-- Models `urllib.parse.urlparse` (CPython 3.11, default arguments):
`urlsplit` followed by the params split for schemes in `uses_params`. -/
def urlparseE (url : Str) : Except String ParseResult :=
  match urlsplitE url with
  | .error e => .error e
  | .ok s =>
    if usesParams.contains s.scheme && s.path.contains ';' then
      let pp := splitParams s.path
      .ok ⟨s.scheme, s.netloc, pp.1, pp.2, s.query, s.fragment⟩
    else
      .ok ⟨s.scheme, s.netloc, s.path, [], s.query, s.fragment⟩

/-- Models `parsed.hostname or ""` from `Yt_agent.py`: the `hostname`
property of `urllib.parse` results (text after the last `@`, up to `]` for
a bracketed host and up to `:` otherwise, lowercased before any `%` zone
marker), with `None` collapsed to the empty string by the `or ""`. -/
def pyHostname (netloc : Str) : Str :=
  let hostinfo := (pyRpartition '@' netloc).2.2
  let pb := pyPartition '[' hostinfo
  let h0 := if pb.2.1 then (pyPartition ']' pb.2.2).1 else (pyPartition ':' hostinfo).1
  if h0.isEmpty then []
  else
    let pz := pyPartition '%' h0
    pz.1.map pyLower ++ (if pz.2.1 then '%' :: pz.2.2 else [])

/-! ### Percent-decoding and query parsing

`parse_qs` (with default arguments) builds a dictionary from the ordered
pairs of `parse_qsl`; `parse_qsl` splits on `&`, drops empty chunks, chunks
without `=` and chunks with an empty value, replaces `+` by space and
percent-decodes names and values with `unquote` (UTF-8, `errors='replace'`). -/

/-- The Unicode replacement character used by the `replace` error handler. -/
def replChar : Char := Char.ofNat 0xfffd

/-- Whether `c` is a valid UTF-8 continuation byte given the lead byte `b`
(the restricted ranges after `0xe0`, `0xed`, `0xf0`, `0xf4` rule out
overlong encodings and surrogates, as in CPython's decoder). -/
def utf8Cont2 (b c : Nat) : Bool :=
  if b == 0xe0 then 0xa0 ≤ c && c ≤ 0xbf
  else if b == 0xed then 0x80 ≤ c && c ≤ 0x9f
  else if b == 0xf0 then 0x90 ≤ c && c ≤ 0xbf
  else if b == 0xf4 then 0x80 ≤ c && c ≤ 0x8f
  else 0x80 ≤ c && c ≤ 0xbf

/-- Plain UTF-8 continuation byte. -/
def utf8Cont (c : Nat) : Bool := 0x80 ≤ c && c ≤ 0xbf

/-- UTF-8 decoding with the `replace` error handler, as performed by
`bytes.decode('utf-8', 'replace')`: each maximal invalid subpart becomes
one U+FFFD, and decoding resumes at the offending byte. -/
def utf8DecodeReplace : List Nat → List Char
  | [] => []
  | b :: rest =>
    if b ≤ 0x7f then Char.ofNat b :: utf8DecodeReplace rest
    else if b < 0xc2 then replChar :: utf8DecodeReplace rest
    else if b ≤ 0xdf then
      match rest with
      | [] => [replChar]
      | c1 :: rest1 =>
        if utf8Cont c1 then
          Char.ofNat ((b - 0xc0) * 0x40 + (c1 - 0x80)) :: utf8DecodeReplace rest1
        else replChar :: utf8DecodeReplace (c1 :: rest1)
    else if b ≤ 0xef then
      match rest with
      | [] => [replChar]
      | c1 :: rest1 =>
        if utf8Cont2 b c1 then
          match rest1 with
          | [] => [replChar]
          | c2 :: rest2 =>
            if utf8Cont c2 then
              Char.ofNat ((b - 0xe0) * 0x1000 + (c1 - 0x80) * 0x40 + (c2 - 0x80)) ::
                utf8DecodeReplace rest2
            else replChar :: utf8DecodeReplace (c2 :: rest2)
        else replChar :: utf8DecodeReplace (c1 :: rest1)
    else if b ≤ 0xf4 then
      match rest with
      | [] => [replChar]
      | c1 :: rest1 =>
        if utf8Cont2 b c1 then
          match rest1 with
          | [] => [replChar]
          | c2 :: rest2 =>
            if utf8Cont c2 then
              match rest2 with
              | [] => [replChar]
              | c3 :: rest3 =>
                if utf8Cont c3 then
                  Char.ofNat ((b - 0xf0) * 0x40000 + (c1 - 0x80) * 0x1000 +
                      (c2 - 0x80) * 0x40 + (c3 - 0x80)) :: utf8DecodeReplace rest3
                else replChar :: utf8DecodeReplace (c3 :: rest3)
            else replChar :: utf8DecodeReplace (c2 :: rest2)
        else replChar :: utf8DecodeReplace (c1 :: rest1)
    else replChar :: utf8DecodeReplace rest

/-- Value of a hexadecimal digit. -/
def hexVal (c : Char) : Nat :=
  if c.isDigit then c.toNat - 48
  else if 'a' ≤ c then c.toNat - 87
  else c.toNat - 55

/-- The core of `urllib.parse.unquote`: the string is cut into maximal
ASCII runs; each run is percent-decoded into bytes (`%` followed by two
hex digits is that byte, any other `%` a literal percent, as in
`unquote_to_bytes`) and UTF-8-decoded with replacement, while non-ASCII
characters pass through unchanged.  `acc` holds the (reversed) bytes of
the current ASCII run. -/
def unquoteGo : Str → List Nat → Str
  | [], acc => utf8DecodeReplace acc.reverse
  | '%' :: a :: b :: rest, acc =>
    if isHexDig a && isHexDig b then
      unquoteGo rest ((hexVal a * 16 + hexVal b) :: acc)
    else unquoteGo (a :: b :: rest) (37 :: acc)
  | '%' :: rest, acc => unquoteGo rest (37 :: acc)
  | c :: rest, acc =>
    if isAscii c then unquoteGo rest (c.toNat :: acc)
    else utf8DecodeReplace acc.reverse ++ c :: unquoteGo rest []
termination_by s _ => s.length
decreasing_by all_goals (simp only [List.length_cons]; omega)

/-- Models `urllib.parse.unquote` with default arguments (UTF-8,
`errors='replace'`); strings without `%` are returned unchanged. -/
def unquote (s : Str) : Str :=
  if s.contains '%' then unquoteGo s [] else s

/-- Models Python `s.replace('+', ' ')` as applied by `parse_qsl`. -/
def plusToSpace (s : Str) : Str :=
  s.map (fun c => if c = '+' then ' ' else c)

/-- The treatment of one `&`-chunk by `parse_qsl` with default arguments:
empty chunks, chunks without `=` and chunks with an empty value are
dropped; otherwise name and value get `+`→space and percent-decoding. -/
def qslPair (nv : Str) : Option (Str × Str) :=
  if nv.isEmpty then none
  else if nv.contains '=' then
    let name := nv.takeWhile (fun c => c != '=')
    let value := (nv.dropWhile (fun c => c != '=')).tail
    if value.isEmpty then none
    else some (unquote (plusToSpace name), unquote (plusToSpace value))
  else none

/-- Models `urllib.parse.parse_qsl` with default arguments. -/
def parse_qsl (qs : Str) : List (Str × Str) :=
  (if qs.isEmpty then [] else splitOnChar '&' qs).filterMap qslPair

/-- Insertion step of `parse_qs`: append the value to an existing key
(keeping dictionary order) or add a new key at the end. -/
def dictAppend : List (Str × List Str) → Str → Str → List (Str × List Str)
  | [], k, v => [(k, [v])]
  | (k', vs) :: rest, k, v =>
    if k' = k then (k', vs ++ [v]) :: rest
    else (k', vs) :: dictAppend rest k v

/-- Models `urllib.parse.parse_qs` with default arguments; the Python
dictionary (insertion-ordered) is modelled as an association list. -/
def parse_qs (qs : Str) : List (Str × List Str) :=
  (parse_qsl qs).foldl (fun d kv => dictAppend d kv.1 kv.2) []

/-- Dictionary lookup, models `d.get(k, default)` returning `none` for a
missing key. -/
def assocGet (d : List (Str × List Str)) (k : Str) : Option (List Str) :=
  match d with
  | [] => none
  | (k', vs) :: rest => if k' = k then some vs else assocGet rest k

/-! ### The extraction routine of `Yt_agent.py` -/

/-- Models `parse_qs(parsed.query).get("v", [None])[0]` from
`extract_video_id`: the first stored value for key `v`, `None` when the
key is missing, and Python's `IndexError` if the stored list were empty
(provably unreachable, see `parse_qs_values_ne_nil`). -/
def watchLookup (query : Str) : Except String (Option Str) :=
  match assocGet (parse_qs query) (strOf "v") with
  | some (v :: _) => .ok (some v)
  | some [] => .error "list index out of range"
  | none => .ok none

/-- Models `parsed.path.split("/")[2]` from `extract_video_id`, with
Python's `IndexError` when fewer than three segments exist. -/
def segLookup (path : Str) : Except String (Option Str) :=
  match (splitOnChar '/' path).get? 2 with
  | some s => .ok (some s)
  | none => .error "list index out of range"

/-- The body of `extract_video_id` after URL parsing, clause for clause:
the `youtu.be` short-link branch, the `youtube.com` suffix test with the
`/watch` query lookup and the `/embed/`, `/shorts/`, `/live/` segment
loop, and the final `return None`. -/
def extractFromParsed (p : ParseResult) : Except String (Option Str) :=
  let host := pyHostname p.netloc
  if host = strOf "youtu.be" then .ok (some (pyLstrip ['/'] p.path))
  else if pyEndswith host (strOf "youtube.com") then
    if p.path = strOf "/watch" then watchLookup p.query
    else if pyStartswith p.path (strOf "/embed/") then segLookup p.path
    else if pyStartswith p.path (strOf "/shorts/") then segLookup p.path
    else if pyStartswith p.path (strOf "/live/") then segLookup p.path
    else .ok none
  else .ok none

/-- The function `extract_video_id` of `Yt_agent.py`: parse the URL with
`urlparse` and dispatch on host and path.  A `ValueError` escaping from
`urlparse` (or an `IndexError` from the subscripts) is an `Except.error`;
Python's `str | None` result is an `Option String`. -/
def extract_video_id (url : String) : Except String (Option String) :=
  match urlparseE url.data with
  | .error e => .error e
  | .ok p => (extractFromParsed p).map (Option.map String.mk)

/-! ### Specification-side definitions

These definitions follow the wording of the specification (not the code);
the theorems below compare the embedded code against them. -/

/-- Decidable equality for `Except`, used to evaluate the embedded
function on concrete inputs. -/
instance exceptDecEq {ε α : Type} [DecidableEq ε] [DecidableEq α] :
    DecidableEq (Except ε α) :=
  fun a b =>
    match a, b with
    | .ok x, .ok y => decidable_of_iff (x = y) (by simp)
    | .error e, .error f => decidable_of_iff (e = f) (by simp)
    | .ok _, .error _ => isFalse (fun h => Except.noConfusion h)
    | .error _, .ok _ => isFalse (fun h => Except.noConfusion h)

/-- The short-link rule as the claim words it: the path with any single
leading slash removed (at most one slash dropped). -/
def specDropOneSlash (path : Str) : Str :=
  match path with
  | '/' :: rest => rest
  | _ => path

/-- The short-link rule as the code has it: all leading slashes removed
(`lstrip` strips a run of characters, not a single one). -/
def stripLeadingSlashes (path : Str) : Str :=
  path.dropWhile (fun c => c = '/')

/-- The `/watch` rule as the spec words it: parse the query into ordered
`key=value` pairs and return the value of the first pair whose key is
`v`, absent when no such pair exists. -/
def specWatchLookup (q : Str) : Option Str :=
  ((parse_qsl q).find? (fun kv => kv.1 == strOf "v")).map Prod.snd

/-- All values stored under key `k` by the ordered pairs, in order. -/
def valuesOf (pairs : List (Str × Str)) (k : Str) : List Str :=
  (pairs.filter (fun kv => kv.1 == k)).map Prod.snd

/-! ### Supporting lemmas -/

theorem splitOnChar_ne_nil (sep : Char) (s : Str) : splitOnChar sep s ≠ [] := by
  cases s with
  | nil => simp [splitOnChar]
  | cons c rest =>
    simp only [splitOnChar]
    split
    · simp
    · split <;> simp

theorem splitOnChar_append_sep (sep : Char) (mid t : Str) (h : sep ∉ mid) :
    splitOnChar sep (mid ++ sep :: t) = mid :: splitOnChar sep t := by
  induction mid with
  | nil => simp [splitOnChar]
  | cons c rest ih =>
    have hc : ¬ c = sep := fun e => h (by simp [e])
    have hrest : sep ∉ rest := fun hm => h (List.mem_cons_of_mem _ hm)
    simp only [List.cons_append, splitOnChar, List.append_eq, if_neg hc]
    rw [ih hrest]

theorem assocGet_dictAppend (d : List (Str × List Str)) (k' k : Str) (v : Str) :
    assocGet (dictAppend d k' v) k =
      if k' = k then some ((assocGet d k).getD [] ++ [v]) else assocGet d k := by
  induction d with
  | nil => by_cases h : k' = k <;> simp [dictAppend, assocGet, h]
  | cons kv rest ih =>
    obtain ⟨k₀, vs₀⟩ := kv
    by_cases h0 : k₀ = k'
    · subst h0
      by_cases hk : k₀ = k
      · subst hk; simp [dictAppend, assocGet]
      · simp [dictAppend, assocGet, hk]
    · by_cases hk : k₀ = k
      · subst hk
        have hk' : ¬ k' = k₀ := fun e => h0 e.symm
        simp [dictAppend, assocGet, h0, hk', ih]
      · simp [dictAppend, assocGet, h0, hk, ih]

theorem assocGet_foldl (pairs : List (Str × Str)) (d : List (Str × List Str)) (k : Str) :
    assocGet (pairs.foldl (fun d kv => dictAppend d kv.1 kv.2) d) k =
      match assocGet d k with
      | some vs => some (vs ++ valuesOf pairs k)
      | none => if valuesOf pairs k = [] then none else some (valuesOf pairs k) := by
  induction pairs generalizing d with
  | nil => cases h : assocGet d k <;> simp [valuesOf, h]
  | cons kv rest ih =>
    obtain ⟨k₁, v₁⟩ := kv
    simp only [List.foldl_cons]
    rw [ih, assocGet_dictAppend]
    by_cases h1 : k₁ = k
    · subst h1
      cases h : assocGet d k₁ <;>
        simp [valuesOf, List.filter_cons, h]
    · have hbeq : (k₁ == k) = false := by simpa using h1
      have hv : valuesOf ((k₁, v₁) :: rest) k = valuesOf rest k := by
        simp [valuesOf, List.filter_cons, hbeq]
      cases h : assocGet d k <;> simp [h, h1, hv]

theorem assocGet_parse_qs (qs k : Str) :
    assocGet (parse_qs qs) k =
      if valuesOf (parse_qsl qs) k = [] then none
      else some (valuesOf (parse_qsl qs) k) := by
  have h := assocGet_foldl (parse_qsl qs) [] k
  simpa [parse_qs, assocGet] using h

theorem find?_eq_filter_head (pairs : List (Str × Str)) (k : Str) :
    pairs.find? (fun kv => kv.1 == k) = (pairs.filter (fun kv => kv.1 == k)).head? := by
  induction pairs with
  | nil => rfl
  | cons kv rest ih =>
    cases h : (kv.1 == k)
    · simp only [List.find?_cons, List.filter_cons, h]
      exact ih
    · simp only [List.find?_cons, List.filter_cons, h]
      simp

theorem specWatchLookup_eq_head (q : Str) :
    specWatchLookup q = (valuesOf (parse_qsl q) (strOf "v")).head? := by
  unfold specWatchLookup valuesOf
  rw [find?_eq_filter_head, List.head?_map]

theorem watchLookup_eq (q : Str) : watchLookup q = .ok (specWatchLookup q) := by
  unfold watchLookup
  rw [assocGet_parse_qs, specWatchLookup_eq_head]
  by_cases h : valuesOf (parse_qsl q) (strOf "v") = []
  · simp [h]
  · obtain ⟨a, t, ht⟩ := List.exists_cons_of_ne_nil h
    simp [h, ht]

theorem ne_shortlink_of_suffix (host : Str)
    (h : pyEndswith host (strOf "youtube.com") = true) :
    ¬ host = strOf "youtu.be" := by
  intro he
  rw [he] at h
  exact absurd h (by decide)

theorem segSplit_of_sw (path mid : Str) (hmid : '/' ∉ mid)
    (h : pyStartswith path ('/' :: mid ++ ['/']) = true) :
    ∃ l, splitOnChar '/' path = [] :: mid :: l ∧ l ≠ [] := by
  obtain ⟨t, ht⟩ := List.isPrefixOf_iff_prefix.mp h
  have hpath : path = '/' :: (mid ++ '/' :: t) := by
    rw [← ht]; simp
  rw [hpath]
  have h1 : splitOnChar '/' ('/' :: (mid ++ '/' :: t)) =
      [] :: splitOnChar '/' (mid ++ '/' :: t) := by
    simp [splitOnChar]
  rw [h1, splitOnChar_append_sep '/' mid t hmid]
  exact ⟨_, rfl, splitOnChar_ne_nil '/' t⟩

theorem segLookup_eval (path pre mid : Str)
    (hshape : pre = '/' :: mid ++ ['/']) (hmid : '/' ∉ mid)
    (h : pyStartswith path pre = true) :
    3 ≤ (splitOnChar '/' path).length ∧
      segLookup path = .ok (some ((splitOnChar '/' path).getD 2 [])) := by
  subst hshape
  obtain ⟨l, hl, hne⟩ := segSplit_of_sw path mid hmid h
  obtain ⟨a, l', rfl⟩ := List.exists_cons_of_ne_nil hne
  constructor
  · rw [hl]; simp
  · unfold segLookup
    rw [hl]
    rfl

theorem extract_eq_of_parse (url : String) (p : ParseResult)
    (hp : urlparseE url.data = .ok p) :
    extract_video_id url = (extractFromParsed p).map (Option.map String.mk) := by
  unfold extract_video_id
  rw [hp]

theorem schemeSplit_snd_sublist (u : Str) : List.Sublist (schemeSplit u).2 u := by
  unfold schemeSplit
  split
  · split
    · exact List.drop_sublist _ _
    · exact List.Sublist.refl u
  · exact List.Sublist.refl u

theorem netlocSplit_ok (u : Str) (h1 : '[' ∉ u) (h2 : ']' ∉ u) :
    ∃ nl, netlocSplit u = .ok nl ∧ List.Sublist nl.1 u := by
  unfold netlocSplit
  split
  · next rest =>
    have hsub : List.Sublist (rest.takeWhile (fun c => !isNetlocDelim c)) ('/' :: '/' :: rest) :=
      ((List.takeWhile_sublist _).trans (List.sublist_cons_self '/' rest)).trans
        (List.sublist_cons_self '/' ('/' :: rest))
    have hopen : '[' ∉ rest.takeWhile (fun c => !isNetlocDelim c) :=
      fun hm => h1 (hsub.subset hm)
    have hclose : ']' ∉ rest.takeWhile (fun c => !isNetlocDelim c) :=
      fun hm => h2 (hsub.subset hm)
    exact ⟨(rest.takeWhile (fun c => !isNetlocDelim c),
        rest.dropWhile (fun c => !isNetlocDelim c)),
      by simp [hopen, hclose], hsub⟩
  · exact ⟨_, rfl, by simp⟩

theorem urlsplitE_ok (url : Str) (hascii : ∀ c ∈ url, isAscii c = true)
    (hbr1 : '[' ∉ url) (hbr2 : ']' ∉ url) : ∃ s, urlsplitE url = .ok s := by
  unfold urlsplitE
  have hsub1 : List.Sublist ((url.dropWhile isC0Space).filter (fun c => !isUnsafeByte c)) url :=
    (List.filter_sublist _).trans (List.dropWhile_sublist _)
  have hsub2 : List.Sublist
      (schemeSplit ((url.dropWhile isC0Space).filter (fun c => !isUnsafeByte c))).2 url :=
    (schemeSplit_snd_sublist _).trans hsub1
  obtain ⟨nl, hnl, hnlsub⟩ := netlocSplit_ok _
    (fun hm => hbr1 (hsub2.subset hm)) (fun hm => hbr2 (hsub2.subset hm))
  have hcn : checknetloc nl.1 = .ok () := by
    unfold checknetloc
    have hall : nl.1.all isAscii = true :=
      List.all_eq_true.mpr (fun c hc => hascii c (hsub2.subset (hnlsub.subset hc)))
    simp [hall]
  simp only [hnl, hcn]
  exact ⟨_, rfl⟩

theorem urlparseE_ok (url : Str) (hascii : ∀ c ∈ url, isAscii c = true)
    (hbr1 : '[' ∉ url) (hbr2 : ']' ∉ url) : ∃ p, urlparseE url = .ok p := by
  obtain ⟨s, hs⟩ := urlsplitE_ok url hascii hbr1 hbr2
  unfold urlparseE
  simp only [hs]
  split <;> exact ⟨_, rfl⟩

theorem extractFromParsed_ok (p : ParseResult) :
    ∃ r, extractFromParsed p = .ok r := by
  unfold extractFromParsed
  by_cases h1 : pyHostname p.netloc = strOf "youtu.be"
  · refine ⟨some (pyLstrip ['/'] p.path), ?_⟩
    simp [h1]
  by_cases h2 : pyEndswith (pyHostname p.netloc) (strOf "youtube.com") = true
  · by_cases h3 : p.path = strOf "/watch"
    · refine ⟨specWatchLookup p.query, ?_⟩
      have hres := watchLookup_eq p.query
      simp [h1, h2, h3, hres]
    by_cases h4 : pyStartswith p.path (strOf "/embed/") = true
    · refine ⟨some ((splitOnChar '/' p.path).getD 2 []), ?_⟩
      have hres := (segLookup_eval p.path _ (strOf "embed") (by decide) (by decide) h4).2
      simp [h1, h2, h3, h4, hres]
    by_cases h5 : pyStartswith p.path (strOf "/shorts/") = true
    · refine ⟨some ((splitOnChar '/' p.path).getD 2 []), ?_⟩
      have hres := (segLookup_eval p.path _ (strOf "shorts") (by decide) (by decide) h5).2
      simp [h1, h2, h3, h4, h5, hres]
    by_cases h6 : pyStartswith p.path (strOf "/live/") = true
    · refine ⟨some ((splitOnChar '/' p.path).getD 2 []), ?_⟩
      have hres := (segLookup_eval p.path _ (strOf "live") (by decide) (by decide) h6).2
      simp [h1, h2, h3, h4, h5, h6, hres]
    · exact ⟨none, by simp [h1, h2, h3, h4, h5, h6]⟩
  · exact ⟨none, by simp [h1, h2]⟩

theorem pyLstrip_slash (s : Str) : pyLstrip ['/'] s = stripLeadingSlashes s := by
  simp [pyLstrip, stripLeadingSlashes]

/-! ### Claims -/

/-- C1 (counterexample): the claim that no exception ever escapes
`extract_video_id` is false — on the input `https://[` the underlying
`urlparse` raises `ValueError: Invalid IPv6 URL`, which propagates to the
caller. -/
theorem extract_video_id_raises_on_unmatched_bracket :
    extract_video_id "https://[" = .error "Invalid IPv6 URL" := by decide

/-- C1 (amended): for every input string consisting of ASCII characters
and containing no square bracket, `extract_video_id` terminates normally
and returns a value (an identifier or absence) — and whenever the URL
parse yields an empty host, the unparseable input resolves to absence. -/
theorem extract_video_id_total_on_bracket_free_ascii (url : String)
    (hascii : ∀ c ∈ url.data, isAscii c = true)
    (hbr1 : '[' ∉ url.data) (hbr2 : ']' ∉ url.data) :
    (∃ r, extract_video_id url = .ok r) ∧
      ∀ p, urlparseE url.data = .ok p → pyHostname p.netloc = [] →
        extract_video_id url = .ok none := by
  constructor
  · obtain ⟨p, hp⟩ := urlparseE_ok url.data hascii hbr1 hbr2
    obtain ⟨r, hr⟩ := extractFromParsed_ok p
    refine ⟨r.map String.mk, ?_⟩
    rw [extract_eq_of_parse url p hp, hr]
    rfl
  · intro p hp hh
    rw [extract_eq_of_parse url p hp]
    unfold extractFromParsed
    rw [hh]
    have d1 : ¬ ([] : Str) = strOf "youtu.be" := by decide
    have d2 : pyEndswith ([] : Str) (strOf "youtube.com") = false := by decide
    simp [d1, d2, Except.map]

/-- C1 (witness): the amended totality theorem applied to the concrete
non-URL input `not a url`. -/
theorem extract_video_id_total_on_bracket_free_ascii_witness :
    ∃ r, extract_video_id "not a url" = .ok r :=
  (extract_video_id_total_on_bracket_free_ascii "not a url"
    (by decide) (by decide) (by decide)).1

/-- C2 (counterexample): for `https://youtu.be//abc` the parsed host is
`youtu.be` and the parsed path is `//abc`; the claim predicts the result
`/abc` (a single leading slash removed), but the function returns `abc` —
`lstrip("/")` removes the whole run of leading slashes. -/
theorem extract_video_id_shortlink_single_slash_refuted :
    urlparseE (strOf "https://youtu.be//abc") =
      .ok ⟨strOf "https", strOf "youtu.be", strOf "//abc", [], [], []⟩ ∧
    pyHostname (strOf "youtu.be") = strOf "youtu.be" ∧
    specDropOneSlash (strOf "//abc") = strOf "/abc" ∧
    extract_video_id "https://youtu.be//abc" = .ok (some "abc") ∧
    ¬ extract_video_id "https://youtu.be//abc" =
        .ok (some (String.mk (specDropOneSlash (strOf "//abc")))) := by decide

/-- C2 (amended): for every input whose parsed host is exactly `youtu.be`,
`extract_video_id` returns the parsed path with all leading slashes
removed (a path with several leading slashes loses the whole run, not
just one slash). -/
theorem extract_video_id_shortlink_strips_leading_slashes (url : String)
    (p : ParseResult) (hp : urlparseE url.data = .ok p)
    (hh : pyHostname p.netloc = strOf "youtu.be") :
    extract_video_id url = .ok (some (String.mk (stripLeadingSlashes p.path))) := by
  rw [extract_eq_of_parse url p hp]
  unfold extractFromParsed
  simp [hh, pyLstrip_slash, Except.map]

/-- C2 (witness): the amended short-link theorem applied to
`https://youtu.be//abc`, whose double slash collapses entirely. -/
theorem extract_video_id_shortlink_strips_leading_slashes_witness :
    extract_video_id "https://youtu.be//abc" = .ok (some "abc") :=
  (extract_video_id_shortlink_strips_leading_slashes "https://youtu.be//abc"
      ⟨strOf "https", strOf "youtu.be", strOf "//abc", [], [], []⟩
      (by decide) (by decide)).trans (by decide)

/-- C3: on the primary domain (parsed host ending in `youtube.com`) with
path exactly `/watch`, the function returns the value of the first `v`
pair of the parsed query string — the first value when the key repeats —
and absence when no `v` pair exists. -/
theorem extract_video_id_watch_first_v (url : String) (p : ParseResult)
    (hp : urlparseE url.data = .ok p)
    (hh : pyEndswith (pyHostname p.netloc) (strOf "youtube.com") = true)
    (hpath : p.path = strOf "/watch") :
    extract_video_id url = .ok ((specWatchLookup p.query).map String.mk) := by
  rw [extract_eq_of_parse url p hp]
  unfold extractFromParsed
  have h1 := ne_shortlink_of_suffix _ hh
  have hres := watchLookup_eq p.query
  simp [h1, hh, hpath, hres, Except.map]

/-- C3 (witness): the `/watch` theorem applied to
`https://m.youtube.com/watch?v=a&v=b`, returning the first of the two
repeated `v` values. -/
theorem extract_video_id_watch_first_v_witness :
    extract_video_id "https://m.youtube.com/watch?v=a&v=b" = .ok (some "a") :=
  (extract_video_id_watch_first_v "https://m.youtube.com/watch?v=a&v=b"
      ⟨strOf "https", strOf "m.youtube.com", strOf "/watch", [], strOf "v=a&v=b", []⟩
      (by decide) (by decide) (by decide)).trans (by decide)

/-- C4: on the primary domain, for a parsed path beginning with `/embed/`,
`/shorts/` or `/live/`, the function returns the third `/`-separated
segment (index 2); such a path always splits into at least three
segments, so the subscript never faults. -/
theorem extract_video_id_seg_path (url : String) (p : ParseResult)
    (hp : urlparseE url.data = .ok p)
    (hh : pyEndswith (pyHostname p.netloc) (strOf "youtube.com") = true)
    (hpre : pyStartswith p.path (strOf "/embed/") = true ∨
      pyStartswith p.path (strOf "/shorts/") = true ∨
      pyStartswith p.path (strOf "/live/") = true) :
    3 ≤ (splitOnChar '/' p.path).length ∧
      extract_video_id url =
        .ok (some (String.mk ((splitOnChar '/' p.path).getD 2 []))) := by
  have h1 := ne_shortlink_of_suffix _ hh
  have hw : ¬ p.path = strOf "/watch" := by
    intro he
    rcases hpre with h | h | h <;> (rw [he] at h; exact absurd h (by decide))
  have hseg : 3 ≤ (splitOnChar '/' p.path).length ∧
      segLookup p.path = .ok (some ((splitOnChar '/' p.path).getD 2 [])) := by
    rcases hpre with h | h | h
    · exact segLookup_eval p.path _ (strOf "embed") (by decide) (by decide) h
    · exact segLookup_eval p.path _ (strOf "shorts") (by decide) (by decide) h
    · exact segLookup_eval p.path _ (strOf "live") (by decide) (by decide) h
  refine ⟨hseg.1, ?_⟩
  rw [extract_eq_of_parse url p hp]
  unfold extractFromParsed
  rcases hpre with h | h | h
  · simp [h1, hh, hw, h, hseg.2, Except.map]
  · by_cases h4 : pyStartswith p.path (strOf "/embed/") = true
    · simp [h1, hh, hw, h4, hseg.2, Except.map]
    · simp [h1, hh, hw, h4, h, hseg.2, Except.map]
  · by_cases h4 : pyStartswith p.path (strOf "/embed/") = true
    · simp [h1, hh, hw, h4, hseg.2, Except.map]
    · by_cases h5 : pyStartswith p.path (strOf "/shorts/") = true
      · simp [h1, hh, hw, h4, h5, hseg.2, Except.map]
      · simp [h1, hh, hw, h4, h5, h, hseg.2, Except.map]

/-- C4 (witness): the segment theorem applied to
`https://www.youtube.com/shorts/abc123XYZ`. -/
theorem extract_video_id_seg_path_witness :
    3 ≤ (splitOnChar '/' (strOf "/shorts/abc123XYZ")).length ∧
      extract_video_id "https://www.youtube.com/shorts/abc123XYZ" =
        .ok (some (String.mk ((splitOnChar '/' (strOf "/shorts/abc123XYZ")).getD 2 []))) :=
  extract_video_id_seg_path "https://www.youtube.com/shorts/abc123XYZ"
    ⟨strOf "https", strOf "www.youtube.com", strOf "/shorts/abc123XYZ", [], [], []⟩
    (by decide) (by decide) (Or.inr (Or.inl (by decide)))

/-- C5: when the parsed host is neither `youtu.be` nor a host ending in
`youtube.com`, the function returns absence, whatever the path and query
look like. -/
theorem extract_video_id_foreign_host (url : String) (p : ParseResult)
    (hp : urlparseE url.data = .ok p)
    (h1 : ¬ pyHostname p.netloc = strOf "youtu.be")
    (h2 : pyEndswith (pyHostname p.netloc) (strOf "youtube.com") = false) :
    extract_video_id url = .ok none := by
  rw [extract_eq_of_parse url p hp]
  unfold extractFromParsed
  simp [h1, h2, Except.map]

/-- C5 (witness): the foreign-host theorem applied to
`https://example.com/watch?v=dQw4w9WgXcQ`, which has a `/watch?v=` shape
but the wrong host. -/
theorem extract_video_id_foreign_host_witness :
    extract_video_id "https://example.com/watch?v=dQw4w9WgXcQ" = .ok none :=
  extract_video_id_foreign_host "https://example.com/watch?v=dQw4w9WgXcQ"
    ⟨strOf "https", strOf "example.com", strOf "/watch", [], strOf "v=dQw4w9WgXcQ", []⟩
    (by decide) (by decide) (by decide)

/-- C6: `extract_video_id` is a pure function of the character content of
its argument: two calls with the same input yield identical results.  The
embedding is deterministic and state-free by construction, mirroring the
Python function, which reads nothing beyond its argument and the pure
`urllib.parse` helpers. -/
theorem extract_video_id_deterministic (s t : String) (h : s.data = t.data) :
    extract_video_id s = extract_video_id t := by
  unfold extract_video_id
  rw [h]

/-- C6 (witness): determinism applied to two identical concrete calls. -/
theorem extract_video_id_deterministic_witness :
    extract_video_id "https://youtu.be/x" = extract_video_id "https://youtu.be/x" :=
  extract_video_id_deterministic "https://youtu.be/x" "https://youtu.be/x" rfl

/-- C7: `extract_video_id "https://youtu.be/"` returns the empty string as
a present value, and that present empty string is distinguishable from
the absence result. -/
theorem extract_video_id_shortlink_empty_present :
    extract_video_id "https://youtu.be/" = .ok (some "") ∧
      (Except.ok (some "") : Except String (Option String)) ≠ .ok none := by decide

/-- C8: extra query parameters on a `/watch` URL are ignored, and the
plain short link extracts its path segment. -/
theorem extract_video_id_extra_query_params_ignored :
    extract_video_id "https://www.youtube.com/watch?v=dQw4w9WgXcQ&t=30s" =
      .ok (some "dQw4w9WgXcQ") ∧
    extract_video_id "https://youtu.be/dQw4w9WgXcQ" = .ok (some "dQw4w9WgXcQ") := by decide

/-- C9: the primary-domain test is a bare suffix check — `notyoutube.com`
ends in the characters `youtube.com` without a dot separator, and the
`/watch` rule is applied to it rather than returning absence. -/
theorem extract_video_id_bare_suffix_host :
    pyEndswith (strOf "notyoutube.com") (strOf "youtube.com") = true ∧
      extract_video_id "https://notyoutube.com/watch?v=X" = .ok (some "X") := by decide

/-- C10: on the primary domain, a path that is exactly `/embed/`,
`/shorts/` or `/live/` (nothing after the final slash) yields the empty
string as a present value — the third split segment is empty — not
absence. -/
theorem extract_video_id_bare_seg_empty_present (url : String) (p : ParseResult)
    (hp : urlparseE url.data = .ok p)
    (hh : pyEndswith (pyHostname p.netloc) (strOf "youtube.com") = true)
    (hpath : p.path = strOf "/embed/" ∨ p.path = strOf "/shorts/" ∨
      p.path = strOf "/live/") :
    extract_video_id url = .ok (some "") ∧ (some "" : Option String) ≠ none := by
  have h1 := ne_shortlink_of_suffix _ hh
  refine ⟨?_, by simp⟩
  rw [extract_eq_of_parse url p hp]
  unfold extractFromParsed
  rcases hpath with h | h | h
  · have hw : ¬ p.path = strOf "/watch" := by rw [h]; decide
    have hsw : pyStartswith p.path (strOf "/embed/") = true := by rw [h]; decide
    have hv : segLookup p.path = .ok (some []) := by rw [h]; decide
    simp [h1, hh, hw, hsw, hv, Except.map]
  · have hw : ¬ p.path = strOf "/watch" := by rw [h]; decide
    have h4 : pyStartswith p.path (strOf "/embed/") = false := by rw [h]; decide
    have hsw : pyStartswith p.path (strOf "/shorts/") = true := by rw [h]; decide
    have hv : segLookup p.path = .ok (some []) := by rw [h]; decide
    simp [h1, hh, hw, h4, hsw, hv, Except.map]
  · have hw : ¬ p.path = strOf "/watch" := by rw [h]; decide
    have h4 : pyStartswith p.path (strOf "/embed/") = false := by rw [h]; decide
    have h5 : pyStartswith p.path (strOf "/shorts/") = false := by rw [h]; decide
    have hsw : pyStartswith p.path (strOf "/live/") = true := by rw [h]; decide
    have hv : segLookup p.path = .ok (some []) := by rw [h]; decide
    simp [h1, hh, hw, h4, h5, hsw, hv, Except.map]

/-- C10 (witness): the bare-segment theorem applied to
`https://www.youtube.com/embed/`. -/
theorem extract_video_id_bare_seg_empty_present_witness :
    extract_video_id "https://www.youtube.com/embed/" = .ok (some "") ∧
      (some "" : Option String) ≠ none :=
  extract_video_id_bare_seg_empty_present "https://www.youtube.com/embed/"
    ⟨strOf "https", strOf "www.youtube.com", strOf "/embed/", [], [], []⟩
    (by decide) (by decide) (Or.inl (by decide))

end YtSummarizer
